import Mathlib

/-!
Verification of the resilient-fetch subsystem of video-sum-mcp.

Shallow embedding of:
- `core/services/safe_crawler.py` (`SafeRequester`, `AsyncSafeRequester`,
  `batch_process_urls`, `async_batch_process_urls`);
- `core/utils_modules/platform_strategies.py` (`PlatformStrategyManager`);
- `core/managers/cache_manager.py` (`DocumentCache`).

Machine integers are modelled with `Nat`; float timestamps with `Int` in
an arbitrary subsecond unit such as milliseconds (only order comparisons
and exact differences occur, so this is faithful at these magnitudes);
sizes with `Nat` bytes (the float-MB comparison in the source is exact
far below any precision boundary).  Fallible
code with `Option`/`Except`, and the on-disk cache with explicit state
passing over association lists mirroring Python dicts.  String primitives
(`in`, `split`, `lower`) are re-implemented structurally on `List Char`
so that concrete instances evaluate inside the kernel.
-/

/-! ## Definitions -/

/-! ### String primitives -/

/-- `pat` is a prefix of `s` (character lists). -/
def startsWith : List Char → List Char → Bool
  | _, [] => true
  | [], _ :: _ => false
  | c :: s, p :: ps => c = p && startsWith s ps

/-- Python's `pat in s` substring test on character lists (an empty `pat`
is contained in everything, as in Python). -/
def containsSub : List Char → List Char → Bool
  | [], pat => pat.isEmpty
  | c :: rest, pat => startsWith (c :: rest) pat || containsSub rest pat

/-- Python's `pat in s` on strings. -/
def strContains (s pat : String) : Bool := containsSub s.data pat.data

/-- Split at the first occurrence of `pat`: the part before it and, when
`pat` occurs, the part after it. -/
def splitOnceAux : List Char → List Char → List Char × Option (List Char)
  | [], _ => ([], none)
  | c :: rest, pat =>
    if startsWith (c :: rest) pat then ([], some ((c :: rest).drop pat.length))
    else
      let r := splitOnceAux rest pat
      (c :: r.1, r.2)

/-- Split `s` at the first occurrence of `sep`: the part before it and,
when `sep` occurs, the part after it (i.e. `s.split(sep, 1)`). -/
def splitOnce (s sep : String) : String × Option String :=
  match splitOnceAux s.data sep.data with
  | (pre, none) => (⟨pre⟩, none)
  | (pre, some post) => (⟨pre⟩, some ⟨post⟩)

/-- Split at every occurrence of `pat` (Python `s.split(sep)` for a
nonempty `sep`); the fuel is bounded by the string length since every
split consumes at least one character. -/
def splitAllFuel : Nat → List Char → List Char → List (List Char)
  | 0, s, _ => [s]
  | fuel + 1, s, pat =>
      match splitOnceAux s pat with
      | (pre, none) => [pre]
      | (pre, some post) => pre :: splitAllFuel fuel post pat

/-- Python `s.split(sep)` for nonempty `sep`, on character lists. -/
def splitAll (s pat : List Char) : List (List Char) := splitAllFuel s.length s pat

/-! ### URL parsing (`urllib.parse.urlparse` as used by the subsystem) -/

/-- The six components of `urllib.parse.urlparse`. -/
structure ParsedUrl where
  scheme : String
  netloc : String
  path : String
  params : String
  query : String
  fragment : String
deriving DecidableEq, Repr

/-- `urllib.parse.urlparse` restricted to the absolute `scheme://…` URLs
this subsystem handles (every call site passes one): fragment after the
first `#`, scheme before `://`, query after the first `?`, netloc up to
the first `/`, the rest is the path.  Path parameters (`;`) and
percent-escapes do not occur in the URLs the claims mention and are not
modelled. -/
def urlparse (url : String) : ParsedUrl :=
  let (beforeFrag, fragOpt) := splitOnce url "#"
  let fragment := fragOpt.getD ""
  match splitOnce beforeFrag "://" with
  | (schemePart, some rest) =>
      let (beforeQuery, queryOpt) := splitOnce rest "?"
      let query := queryOpt.getD ""
      let (netloc, pathOpt) := splitOnce beforeQuery "/"
      let path := match pathOpt with
        | some p => "/" ++ p
        | none => ""
      ⟨schemePart, netloc, path, "", query, fragment⟩
  | (_, none) => ⟨"", "", beforeFrag, "", "", fragment⟩

/-- `urllib.parse.urlunparse` restricted to components with nonempty
scheme and netloc (the only ones this subsystem rebuilds). -/
def urlunparse (p : ParsedUrl) : String :=
  p.scheme ++ "://" ++ p.netloc ++ p.path ++
    (if p.params = "" then "" else ";" ++ p.params) ++
    (if p.query = "" then "" else "?" ++ p.query) ++
    (if p.fragment = "" then "" else "#" ++ p.fragment)

/-! ### Association-list model of Python dicts -/

/-- Dict lookup `m.get(k)`. -/
def lookupKey {β : Type} : List (String × β) → String → Option β
  | [], _ => none
  | (k', v') :: rest, k => if k' = k then some v' else lookupKey rest k

/-- Dict assignment `m[k] = v`: replace the existing binding or append. -/
def updateKey {β : Type} : List (String × β) → String → β → List (String × β)
  | [], k, v => [(k, v)]
  | (k', v') :: rest, k, v =>
      if k' = k then (k, v) :: rest else (k', v') :: updateKey rest k v

/-- Dict deletion `del m[k]` (no-op when the key is absent). -/
def removeKey {β : Type} : List (String × β) → String → List (String × β)
  | [], _ => []
  | (k', v') :: rest, k =>
      if k' = k then removeKey rest k else (k', v') :: removeKey rest k

/-! ### SafeRequester: retry loop and outcome classification -/

namespace SafeCrawler

/-- The retry forcelist configured in `SafeRequester.__init__`
(`safe_crawler.py` line 93): `status_forcelist=[429, 500, 502, 503, 504, 403, 502]`
(the duplicated 502 is kept verbatim). -/
def statusForcelist : List Nat := [429, 500, 502, 503, 504, 403, 502]

/-- The statuses urllib3 retries when the response carries a `Retry-After`
header and `respect_retry_after_header` is set
(`Retry.RETRY_AFTER_STATUS_CODES = frozenset([413, 429, 503])`). -/
def retryAfterStatusCodes : List Nat := [413, 429, 503]

/-- Outcome of one low-level HTTP attempt as seen by urllib3: either a
response with a status code and a flag recording whether it carries a
`Retry-After` header, or a network-level error (timeout / connection
reset). -/
inductive AttemptResult where
  | resp (status : Nat) (hasRetryAfter : Bool)
  | netErr
deriving DecidableEq, Repr

/-- What the urllib3 retry loop hands back to `requests`: the final
response, or a raised `MaxRetryError`-style exception. -/
inductive RetryOutcome where
  | response (status : Nat)
  | raised
deriving DecidableEq, Repr

/-- The urllib3 `Retry` loop as configured by `SafeRequester.__init__`:
`total = maxRetries`, `raise_on_status=False`,
`respect_retry_after_header=True` (`safe_crawler.py` line 94).  `server i`
is the outcome of the i-th physical attempt.  Per urllib3's
`Retry.is_retry`, a response is retried while the budget lasts when its
status is in the forcelist, or when it carries a `Retry-After` header and
its status is in `RETRY_AFTER_STATUS_CODES` ({413, 429, 503}).  Once the
budget is exhausted the last response is returned either way: the
forcelist path raises `MaxRetryError` which `raise_on_status=False` turns
into returning the response, and the Retry-After path's `self.total and …`
conjunction is falsy at `total = 0`, so `is_retry` itself says no.  Any
other response is returned immediately.  A network-level error is retried
on the same budget and raises once the budget is exhausted.  Returns
(number of physical attempts performed, outcome). -/
def retryLoop (server : Nat → AttemptResult) : Nat → Nat → Nat × RetryOutcome
  | i, left =>
    match server i with
    | .resp s ra =>
      if s ∈ statusForcelist ∨ (ra = true ∧ s ∈ retryAfterStatusCodes) then
        match left with
        | 0 => (i + 1, .response s)
        | left' + 1 => retryLoop server (i + 1) left'
      else (i + 1, .response s)
    | .netErr =>
      match left with
      | 0 => (i + 1, .raised)
      | left' + 1 => retryLoop server (i + 1) left'

/-- `SafeRequester.get` (`safe_crawler.py` lines 183-241), restricted to the
outcome the caller observes: the session issues the request through the
retry adapter; every returned response (200, 404, 403, 429, anything else)
is handed back to the caller by the status-classification chain at lines
216-230, while every raised exception is caught by the `except` arms at
lines 232-239 and converted to `None`.  Returns (physical attempts,
returned value): `some s` is a returned response with status `s`, `none`
is the caught-exception path. -/
def safeGet (server : Nat → AttemptResult) (maxRetries : Nat) : Nat × Option Nat :=
  match retryLoop server 0 maxRetries with
  | (n, .response s) => (n, some s)
  | (n, .raised) => (n, none)

/-! ### Batch processing (`batch_process_urls`, `async_batch_process_urls`) -/

/-- One per-URL result slot of a batch.  A unit whose `processor_func`
returns normally fills its slot with the returned value; a unit whose
`processor_func` raises fills it with the error record
`{"status": "error", "message": str(e), "url": url}` built in the
`except` arm. -/
inductive Slot (α : Type) where
  | ok (result : α)
  | err (message : String) (url : String)
deriving DecidableEq, Repr

/-- The body of the per-URL loop: call `processor_func(url)` and catch any
raised exception into the unit's own error slot.  `proc` models
`processor_func`, with `Except.error` standing for a raised exception. -/
def wrapSlot {α : Type} (proc : String → Except String α) (url : String) : Slot α :=
  match proc url with
  | .ok a => .ok a
  | .error e => .err e url

/-- The chunked loop of `batch_process_urls` (`safe_crawler.py` lines
461-486): process `take batchSize`, append the chunk's slots, recurse on
the remainder (the inter-batch `time.sleep(batch_delay)` does not affect
the result list).  Fuel is the url-list length, which suffices whenever
`batchSize ≥ 1`; Python raises `ValueError` for `batch_size = 0`, a case
the claims never exercise. -/
def batchGo {α : Type} (proc : String → Except String α) (batchSize : Nat) :
    Nat → List String → List (Slot α)
  | 0, _ => []
  | _, [] => []
  | fuel + 1, u :: rest =>
      ((u :: rest).take batchSize).map (wrapSlot proc) ++
        batchGo proc batchSize fuel ((u :: rest).drop batchSize)

/-- `batch_process_urls(urls, processor_func, batch_size, …)`: the returned
`results` list. -/
def batchProcessUrls {α : Type} (proc : String → Except String α) (batchSize : Nat)
    (urls : List String) : List (Slot α) :=
  batchGo proc batchSize urls.length urls

/-- `async_batch_process_urls(urls, processor_func, max_concurrent, …)`:
tasks are created in input order and `asyncio.gather` returns their
results in that same order; each `process_single_url` catches every
exception into the unit's error slot, so the post-`gather`
`isinstance(result, Exception)` pass leaves every slot unchanged. -/
def asyncBatchProcessUrls {α : Type} (proc : String → Except String α)
    (urls : List String) : List (Slot α) :=
  (urls.map (wrapSlot proc)).map
    (fun r => match r with | .ok a => .ok a | .err m u => .err m u)

/-- Number of successful slots in a batch result. -/
def countOk {α : Type} (rs : List (Slot α)) : Nat :=
  (rs.filter (fun r => match r with | .ok _ => true | .err _ _ => false)).length

/-- Number of failed slots in a batch result. -/
def countErr {α : Type} (rs : List (Slot α)) : Nat :=
  (rs.filter (fun r => match r with | .ok _ => false | .err _ _ => true)).length

end SafeCrawler

/-! ### Pacing: observable events and both pacer models -/

/-- The three externally observable events of one requester call: the
pacing sleep, the network request itself, and the write of the per-key
last-request timestamp. -/
inductive Ev where
  | pacerWait
  | netCall
  | stampUpdate
deriving DecidableEq, Repr

namespace SafeCrawler

/-- The mutable state of `SafeRequester` relevant to pacing: `min_delay`
and the `last_request_time` dict keyed by `_get_domain(url)` =
`urlparse(url).netloc`. -/
structure BlockingState where
  minDelay : ℤ
  lastRequestTime : List (String × ℤ)
deriving DecidableEq, Repr

/-- One call of the blocking `SafeRequester.get(url)` (`safe_crawler.py`
lines 183-241), as an event trace plus state transition:
`_wait_if_needed(domain)` sleeps when the elapsed time since
`last_request_time[domain]` is below `min_delay` (no sleep when the domain
was never seen); then `session.get` runs inside the `try` (`attempt` is
its outcome, retries coarse-grained into one `netCall` event); only when a
response comes back does line 213 stamp
`last_request_time[domain] = time.time()` — the `except` arms return
`None` without touching the dict.  `nowEntry` is the clock at the pacing
check, `nowUpdate` the clock at the stamp. -/
def blockingGet (st : BlockingState) (url : String) (nowEntry nowUpdate : ℤ)
    (attempt : RetryOutcome) : List Ev × BlockingState × Option Nat :=
  let domain := (urlparse url).netloc
  let waitEvs :=
    match lookupKey st.lastRequestTime domain with
    | some t => if nowEntry - t < st.minDelay then [Ev.pacerWait] else []
    | none => []
  match attempt with
  | .response s =>
      (waitEvs ++ [Ev.netCall, Ev.stampUpdate],
       { st with lastRequestTime := updateKey st.lastRequestTime domain nowUpdate },
       some s)
  | .raised =>
      (waitEvs ++ [Ev.netCall], st, none)

end SafeCrawler

namespace PlatformStrategies

/-- `PlatformStrategyManager.detect_platform` (`platform_strategies.py`
lines 152-163): substring tests over the whole lowercased URL string
(`url.lower()`), not over its host. -/
def detectPlatform (url : String) : String :=
  let u := url.data.map Char.toLower
  if containsSub u "douyin.com".data || containsSub u "iesdouyin.com".data then "douyin"
  else if containsSub u "xiaohongshu.com".data || containsSub u "xhs.com".data then
    "xiaohongshu"
  else if containsSub u "zhihu.com".data then "zhihu"
  else "default"

/-- The `_last_request_times` dict of `PlatformStrategyManager`, keyed by
platform label. -/
structure PlatformPacer where
  lastRequestTimes : List (String × ℤ)
deriving DecidableEq, Repr

/-- `PlatformStrategyManager.wait_if_needed(url)` (`platform_strategies.py`
lines 176-192): detect the platform, read
`_last_request_times.get(platform, 0)`, sleep when the elapsed time is
below the per-call random draw `required`, then — after the (possibly
zero) wait and before control returns to the caller's network request —
stamp `_last_request_times[platform] = time.time()`. -/
def PlatformPacer.waitIfNeeded (p : PlatformPacer) (url : String)
    (required nowEntry nowUpdate : ℤ) : List Ev × PlatformPacer :=
  let platform := detectPlatform url
  let lastTime := (lookupKey p.lastRequestTimes platform).getD 0
  let waitEvs := if nowEntry - lastTime < required then [Ev.pacerWait] else []
  (waitEvs ++ [Ev.stampUpdate], ⟨updateKey p.lastRequestTimes platform nowUpdate⟩)

/-- `AsyncSafeRequester.get(url)` (`safe_crawler.py` lines 539-587):
acquire the semaphore, run `platform_manager.wait_if_needed(url)` (which
stamps the pacer), then issue the network request; both the success path
and the caught-exception path run after the stamp. -/
def asyncGet (p : PlatformPacer) (url : String)
    (required nowEntry nowUpdate : ℤ) (attempt : SafeCrawler.RetryOutcome) :
    List Ev × PlatformPacer × Option Nat :=
  let r := p.waitIfNeeded url required nowEntry nowUpdate
  match attempt with
  | .response s => (r.1 ++ [Ev.netCall], r.2, some s)
  | .raised => (r.1 ++ [Ev.netCall], r.2, none)

end PlatformStrategies

/-! ### DocumentCache (`cache_manager.py`) -/

namespace CacheManager

/-- `urllib.parse.parse_qs` item splitting without percent-decoding (no
escapes occur in the URLs considered): split the query on `&`; keep
`key=value` items whose value is nonempty (`keep_blank_values=False`
drops blank values and items without `=`). -/
def qsPairs (q : String) : List (String × String) :=
  (splitAll q.data "&".data).filterMap fun item =>
    match splitOnceAux item "=".data with
    | (_, none) => none
    | (k, some v) => if v.isEmpty then none else some (⟨k⟩, ⟨v⟩)

/-- Insert one `(key, value)` pair into the grouped dict, preserving
first-occurrence key order (Python dict insertion order) and appending the
value to an existing key's list. -/
def addPair : List (String × List String) → String × String → List (String × List String)
  | [], kv => [(kv.1, [kv.2])]
  | (k', vs) :: rest, kv =>
      if k' = kv.1 then (k', vs ++ [kv.2]) :: rest
      else (k', vs) :: addPair rest kv

/-- `urllib.parse.parse_qs`: group the query's pairs by key. -/
def parseQs (q : String) : List (String × List String) :=
  (qsPairs q).foldl addPair []

/-- Join with `&`. -/
def joinAmp : List String → String
  | [] => ""
  | [x] => x
  | x :: y :: rest => x ++ "&" ++ joinAmp (y :: rest)

/-- `urllib.parse.urlencode(d, doseq=True)` without percent-encoding (the
keys and values involved need none): one `key=value` item per value, in
dict order. -/
def urlencode (ps : List (String × List String)) : String :=
  joinAmp ((ps.map fun p => p.2.map fun v => p.1 ++ "=" ++ v).foldr (· ++ ·) [])

/-- `DocumentCache._normalize_url` (`cache_manager.py` lines 74-102) on
parsed components: for hosts containing `douyin.com` or `iesdouyin.com`,
parse the query, drop the volatile keys `timestamp`, `ts`, `_t`, `time`,
and re-encode; for every other host keep the query verbatim; the fragment
is replaced by `''` in both branches. -/
def normalizeParsed (p : ParsedUrl) : String :=
  if containsSub p.netloc.data "douyin.com".data ||
      containsSub p.netloc.data "iesdouyin.com".data then
    let important := (parseQs p.query).filter fun kv =>
      !(kv.1 == "timestamp" || kv.1 == "ts" || kv.1 == "_t" || kv.1 == "time")
    urlunparse ⟨p.scheme, p.netloc, p.path, p.params, urlencode important, ""⟩
  else
    urlunparse ⟨p.scheme, p.netloc, p.path, p.params, p.query, ""⟩

/-- `DocumentCache._normalize_url` on a URL string. -/
def normalizeUrl (url : String) : String := normalizeParsed (urlparse url)

/-- One entry of `index["entries"]`: url, its hash, creation time, size of
the payload file at save time. -/
structure IndexEntry where
  url : String
  urlHash : String
  cachedAt : ℤ
  fileSize : Nat
deriving DecidableEq, Repr

/-- One payload file `<hash>.json` on disk: its parsed content (`none`
models a file that exists but fails `json.load`) and its byte size. -/
structure FileRec (α : Type) where
  content : Option α
  size : Nat
deriving DecidableEq, Repr

/-- The state of a `DocumentCache`: expiry in seconds
(`cache_expiry_hours * 3600`), size budget in bytes
(`max_cache_size_mb * 1024 * 1024`, the float-MB comparison of
`_cleanup_if_needed` is exact at these magnitudes), the persisted index,
and the payload files on disk. -/
structure CacheState (α : Type) where
  expirySeconds : ℤ
  maxSizeBytes : Nat
  entries : List (String × IndexEntry)
  files : List (String × FileRec α)
deriving DecidableEq, Repr

/-- Size of the payload file stored under hash `h`, 0 when absent. -/
def fileSizeOf {α : Type} (files : List (String × FileRec α)) (h : String) : Nat :=
  match lookupKey files h with
  | some f => f.size
  | none => 0

/-- `DocumentCache._is_cache_valid` (lines 108-125): an entry is valid iff
it exists, `now - cached_at` does not exceed the expiry, and the payload
file named by the entry's own `url_hash` field exists. -/
def isCacheValid {α : Type} (c : CacheState α) (now : ℤ) (e : Option IndexEntry) : Bool :=
  match e with
  | none => false
  | some entry =>
      if c.expirySeconds < now - entry.cachedAt then false
      else (lookupKey c.files entry.urlHash).isSome

/-- `DocumentCache._remove_cache_entry` (lines 207-221): unlink the payload
file if present and delete the index entry if present. -/
def removeCacheEntry {α : Type} (c : CacheState α) (h : String) : CacheState α :=
  { c with entries := removeKey c.entries h, files := removeKey c.files h }

/-- `DocumentCache.get_cached_result` (lines 127-157): hash the normalized
URL, look up the index; an invalid entry (expired or file missing) is
purged and reported as a miss; reading a missing or unparseable payload
file raises, is caught, purges the entry and reports a miss; otherwise the
payload is returned.  `digest` abstracts `hashlib.md5(…).hexdigest()`. -/
def getCachedResult {α : Type} (digest : String → String) (c : CacheState α)
    (now : ℤ) (url : String) : CacheState α × Option α :=
  if isCacheValid c now (lookupKey c.entries (digest (normalizeUrl url))) then
    match lookupKey c.files (digest (normalizeUrl url)) with
    | some f =>
        match f.content with
        | some d => (c, some d)
        | none => (removeCacheEntry c (digest (normalizeUrl url)), none)
    | none => (removeCacheEntry c (digest (normalizeUrl url)), none)
  else
    match lookupKey c.entries (digest (normalizeUrl url)) with
    | some _ => (removeCacheEntry c (digest (normalizeUrl url)), none)
    | none => (c, none)

/-- Total payload size on disk, `_get_cache_size_mb` numerator (the index
file is not part of `files`). -/
def totalCacheSize {α : Type} (c : CacheState α) : Nat :=
  (c.files.map fun f => f.2.size).sum

/-- `DocumentCache._cleanup_old_entries` (lines 243-258): sort the index
entries by `cached_at` ascending (Python's stable sort) and remove the
oldest `max(1, n // 4)` of them, each removal deleting the payload file
and the index entry. -/
def cleanupOldEntries {α : Type} (c : CacheState α) : CacheState α :=
  let sorted := c.entries.mergeSort (fun a b => decide (a.2.cachedAt ≤ b.2.cachedAt))
  let cleanupCount := max 1 (c.entries.length / 4)
  (sorted.take cleanupCount).foldl (fun acc kv => removeCacheEntry acc kv.1) c

/-- `DocumentCache._cleanup_if_needed` (lines 235-241): evict only when the
total payload size strictly exceeds the budget. -/
def cleanupIfNeeded {α : Type} (c : CacheState α) : CacheState α :=
  if c.maxSizeBytes < totalCacheSize c then cleanupOldEntries c else c

/-- `DocumentCache.save_result` (lines 159-205): hash the normalized URL,
write the payload file (content and its serialized size `sz`), stamp the
index entry, then run the size check. -/
def saveResult {α : Type} (digest : String → String) (c : CacheState α)
    (now : ℤ) (url : String) (result : α) (sz : Nat) : CacheState α :=
  let h := digest (normalizeUrl url)
  cleanupIfNeeded
    { c with
        files := updateKey c.files h ⟨some result, sz⟩,
        entries := updateKey c.entries h ⟨url, h, now, sz⟩ }

end CacheManager

/-! ### Cooperative interleaving model of two concurrent `wait_if_needed` calls

`AsyncSafeRequester.get` runs `platform_manager.wait_if_needed` on an
asyncio event loop: code between two `await` points executes atomically
with respect to other coroutines, so the synchronous no-wait path (read
the platform's timestamp, compare, stamp) is one atomic block, while the
wait path is the read-and-compare block, a suspension at
`await asyncio.sleep`, and a wake-and-stamp block.  The clock is strictly
monotone: every `time.time()` read returns a strictly larger value. -/

namespace PacerSim

/-- Control state of one coroutine executing `wait_if_needed` for a fixed
platform: `ready` before the check; `sleeping t` suspended in
`await asyncio.sleep` after having read last-timestamp `t`;
`finished t waited` done, having read `t`, with `waited` recording
whether the coroutine slept. -/
inductive TaskState where
  | ready
  | sleeping (readTs : ℤ)
  | finished (readTs : ℤ) (waited : Bool)
deriving DecidableEq, Repr

/-- Global configuration: the platform's `_last_request_times` entry
`last` (the `.get(platform, 0)` default is just one possible initial
value), the last value any clock read returned, and the two coroutines. -/
structure Config where
  last : ℤ
  clock : ℤ
  task1 : TaskState
  task2 : TaskState
deriving DecidableEq, Repr

/-- One atomic block of a single coroutine whose per-call random draw is
`req` (`get_request_interval()`), relating (last, clock, own state) before
and after:
`checkNoWait` reads `now = n1`, finds `n1 - last ≥ req`, and stamps
`last` with a second fresh read `n2` — all without suspending;
`checkWait` reads `n1`, finds the elapsed time short, and suspends;
`wake` resumes from the sleep and stamps `last` with a fresh read `n`.
Every clock read is strictly larger than every earlier one. -/
inductive TaskStep (req : ℤ) : ℤ → ℤ → TaskState → ℤ → ℤ → TaskState → Prop where
  | checkNoWait (last clock n1 n2 : ℤ) (hc1 : clock < n1) (hc2 : n1 < n2)
      (h : last + req ≤ n1) :
      TaskStep req last clock .ready n2 n2 (.finished last false)
  | checkWait (last clock n1 : ℤ) (hc1 : clock < n1) (h : n1 < last + req) :
      TaskStep req last clock .ready last n1 (.sleeping last)
  | wake (last clock t n : ℤ) (hc : clock < n) :
      TaskStep req last clock (.sleeping t) n n (.finished t true)

/-- The event-loop scheduler: at each step exactly one of the two
coroutines runs its next atomic block against the shared state. -/
inductive Step (req1 req2 : ℤ) : Config → Config → Prop where
  | first (l k : ℤ) (t1 t2 : TaskState) (l' k' : ℤ) (t1' : TaskState)
      (h : TaskStep req1 l k t1 l' k' t1') :
      Step req1 req2 ⟨l, k, t1, t2⟩ ⟨l', k', t1', t2⟩
  | second (l k : ℤ) (t1 t2 : TaskState) (l' k' : ℤ) (t2' : TaskState)
      (h : TaskStep req2 l k t2 l' k' t2') :
      Step req1 req2 ⟨l, k, t1, t2⟩ ⟨l', k', t1, t2'⟩

/-- Safety invariant: the stored stamp is never ahead of the clock, every
coroutine that finished without waiting read a value strictly older than
the current stamp, and two no-wait finishers never read the same value. -/
def Inv (c : Config) : Prop :=
  c.last ≤ c.clock ∧
  (∀ t, c.task1 = .finished t false → t < c.last) ∧
  (∀ t, c.task2 = .finished t false → t < c.last) ∧
  (∀ a b, c.task1 = .finished a false → c.task2 = .finished b false → a ≠ b)

end PacerSim

/-! ## Theorems -/

/-! ### Association-list lemmas -/

theorem lookupKey_updateKey {β : Type} (m : List (String × β)) (k : String)
    (v : β) (d : String) :
    lookupKey (updateKey m k v) d = if d = k then some v else lookupKey m d := by
  induction m with
  | nil =>
      by_cases h : d = k
      · subst h; simp [updateKey, lookupKey]
      · have h2 : ¬ k = d := fun hh => h hh.symm
        simp [updateKey, lookupKey, h, h2]
  | cons p rest ih =>
      obtain ⟨k', v'⟩ := p
      by_cases hk : k' = k
      · subst hk
        by_cases hd : d = k'
        · subst hd; simp [updateKey, lookupKey]
        · have hd2 : ¬ k' = d := fun hh => hd hh.symm
          simp [updateKey, lookupKey, hd, hd2]
      · by_cases hd : k' = d
        · subst hd
          simp [updateKey, lookupKey, hk]
        · simp [updateKey, lookupKey, hk, hd, ih]

theorem lookupKey_removeKey_self {β : Type} (m : List (String × β)) (k : String) :
    lookupKey (removeKey m k) k = none := by
  induction m with
  | nil => rfl
  | cons p rest ih =>
      obtain ⟨k', v'⟩ := p
      by_cases h : k' = k
      · simp [removeKey, h, ih]
      · simp [removeKey, lookupKey, h, ih]

theorem lookupKey_mem {β : Type} (m : List (String × β)) (k : String) (v : β)
    (h : lookupKey m k = some v) : (k, v) ∈ m := by
  induction m with
  | nil => exact absurd h (by simp [lookupKey])
  | cons p rest ih =>
      obtain ⟨k', v'⟩ := p
      by_cases hk : k' = k
      · subst hk
        rw [lookupKey, if_pos rfl] at h
        injection h with h
        subst h
        exact List.mem_cons_self _ _
      · rw [lookupKey, if_neg hk] at h
        exact List.mem_cons_of_mem _ (ih h)

theorem removeKey_eq_filter {β : Type} (m : List (String × β)) (k : String) :
    removeKey m k = m.filter (fun p => decide ¬(p.1 = k)) := by
  induction m with
  | nil => rfl
  | cons p rest ih =>
      obtain ⟨k', v'⟩ := p
      by_cases h : k' = k
      · simp [removeKey, h, ih, List.filter]
      · simp [removeKey, h, ih, List.filter]

/-! ### C2 / C3: retry behaviour -/

namespace SafeCrawler

theorem retryLoop_all_retryable (s : Nat) (server : Nat → AttemptResult)
    (h : ∀ i, ∃ ra, server i = .resp s ra ∧
      (s ∈ statusForcelist ∨ (ra = true ∧ s ∈ retryAfterStatusCodes))) :
    ∀ left i, retryLoop server i left = (i + left + 1, .response s) := by
  intro left
  induction left with
  | zero =>
      intro i
      obtain ⟨ra, hi, hcond⟩ := h i
      simp [retryLoop, hi, hcond]
  | succ n ih =>
      intro i
      obtain ⟨ra, hi, hcond⟩ := h i
      rw [retryLoop]
      simp only [hi, hcond, if_pos]
      rw [ih (i + 1)]
      have : i + 1 + n + 1 = i + (n + 1) + 1 := by omega
      rw [this]

/-- C2: with `maxRetries = 2` and a server answering HTTP 503 on every
attempt (with or without a `Retry-After` header), `SafeRequester.get`
performs exactly 3 physical attempts (1 initial + 2 retries) and returns
the final 503 response to the caller as its typed failure outcome — the
exception path (`none`) is not taken, so no unhandled fault escapes. -/
theorem retry_exhaustion_503_three_attempts (server : Nat → AttemptResult)
    (h : ∀ i, ∃ ra, server i = .resp 503 ra) :
    safeGet server 2 = (3, some 503) ∧ (safeGet server 2).2 ≠ none := by
  have hall : ∀ i, ∃ ra, server i = .resp 503 ra ∧
      ((503 : Nat) ∈ statusForcelist ∨
        (ra = true ∧ (503 : Nat) ∈ retryAfterStatusCodes)) := by
    intro i
    obtain ⟨ra, hi⟩ := h i
    exact ⟨ra, hi, Or.inl (by decide)⟩
  have := retryLoop_all_retryable 503 server hall 2 0
  constructor
  · simp [safeGet, this]
  · simp [safeGet, this]

/-- Witness for C2 at the constant-503 server. -/
theorem retry_exhaustion_503_three_attempts_witness :
    safeGet (fun _ => .resp 503 false) 2 = (3, some 503) :=
  (retry_exhaustion_503_three_attempts (fun _ => .resp 503 false)
    (fun _ => ⟨false, rfl⟩)).1

/-- C3 counterexample: two 4xx statuses other than 429 are retried rather
than surfaced immediately.  403 sits in the configured `status_forcelist`,
so a server answering 403 on every attempt gets 3 physical attempts with
`maxRetries = 2`; and under `respect_retry_after_header=True` a 413
response carrying a `Retry-After` header is retried as well (413 is in
urllib3's `RETRY_AFTER_STATUS_CODES`), again 3 attempts — not the single
attempt an immediately-surfaced permanent failure would make. -/
theorem http403_is_retried :
    400 ≤ 403 ∧ 403 < 500 ∧ 403 ≠ 429 ∧
      safeGet (fun _ => .resp 403 false) 2 = (3, some 403) ∧
      (safeGet (fun _ => .resp 403 false) 2).1 ≠ 1 ∧
      400 ≤ 413 ∧ 413 < 500 ∧ 413 ≠ 429 ∧
      safeGet (fun _ => .resp 413 true) 2 = (3, some 413) ∧
      (safeGet (fun _ => .resp 413 true) 2).1 ≠ 1 := by
  have h403 := retryLoop_all_retryable 403 (fun _ => .resp 403 false)
    (fun _ => ⟨false, rfl, Or.inl (by decide)⟩) 2 0
  have h413 := retryLoop_all_retryable 413 (fun _ => .resp 413 true)
    (fun _ => ⟨true, rfl, Or.inr ⟨rfl, by decide⟩⟩) 2 0
  refine ⟨by omega, by omega, by omega, ?_, ?_, by omega, by omega, by omega, ?_, ?_⟩
  · simp [safeGet, h403]
  · simp [safeGet, h403]
  · simp [safeGet, h413]
  · simp [safeGet, h413]

/-- C3 amended: a 4xx response other than 429, other than 403, and not a
413 carrying a `Retry-After` header, triggers no retry: it is returned to
the caller after exactly one physical attempt, carrying the status.  (403
is in the forcelist and is retried like a transient status; a 413 with
`Retry-After` is retried because `respect_retry_after_header=True` and 413
is in urllib3's `RETRY_AFTER_STATUS_CODES`.) -/
theorem permanent_4xx_not_retried (s maxRetries : Nat) (ra : Bool)
    (server : Nat → AttemptResult)
    (h4 : 400 ≤ s) (h5 : s < 500) (h429 : s ≠ 429) (h403 : s ≠ 403)
    (h413 : s = 413 → ra = false)
    (hfirst : server 0 = .resp s ra) :
    safeGet server maxRetries = (1, some s) := by
  have hnot : ¬ (s ∈ statusForcelist ∨ (ra = true ∧ s ∈ retryAfterStatusCodes)) := by
    rintro (hmem | ⟨hra, hmem⟩)
    · simp only [statusForcelist, List.mem_cons, List.not_mem_nil, or_false] at hmem
      omega
    · simp only [retryAfterStatusCodes, List.mem_cons, List.not_mem_nil,
        or_false] at hmem
      rcases hmem with h | h | h
      · rw [h413 h] at hra
        cases hra
      · exact h429 h
      · omega
  cases maxRetries with
  | zero => rw [safeGet, retryLoop]; simp [hfirst, hnot]
  | succ k => rw [safeGet, retryLoop]; simp [hfirst, hnot]

/-- Witness for the amended C3 at status 404 (no `Retry-After`). -/
theorem permanent_4xx_not_retried_witness :
    safeGet (fun _ => .resp 404 false) 3 = (1, some 404) :=
  permanent_4xx_not_retried 404 3 false (fun _ => .resp 404 false)
    (by omega) (by omega) (by omega) (by omega) (fun h => rfl) rfl

/-! ### C4 / C10: batch processing -/

theorem batchGo_eq_map {α : Type} (proc : String → Except String α) (batchSize : Nat)
    (hpos : 0 < batchSize) :
    ∀ fuel urls, urls.length ≤ fuel →
      batchGo proc batchSize fuel urls = urls.map (wrapSlot proc) := by
  intro fuel
  induction fuel with
  | zero =>
      intro urls h
      have : urls = [] := List.length_eq_zero.mp (Nat.le_zero.mp h)
      subst this; rfl
  | succ n ih =>
      intro urls h
      match urls with
      | [] => rfl
      | u :: rest =>
          rw [batchGo]
          have hlen : ((u :: rest).drop batchSize).length ≤ n := by
            rw [List.length_drop]
            simp only [List.length_cons] at h ⊢
            omega
          rw [ih _ hlen, ← List.map_append, List.take_append_drop]

theorem batchProcessUrls_eq_map {α : Type} (proc : String → Except String α)
    (batchSize : Nat) (hpos : 0 < batchSize) (urls : List String) :
    batchProcessUrls proc batchSize urls = urls.map (wrapSlot proc) :=
  batchGo_eq_map proc batchSize hpos urls.length urls le_rfl

theorem asyncBatchProcessUrls_eq_map {α : Type} (proc : String → Except String α)
    (urls : List String) :
    asyncBatchProcessUrls proc urls = urls.map (wrapSlot proc) := by
  have hid : ∀ r : Slot α,
      (match r with | .ok a => Slot.ok a | .err m u => Slot.err m u) = r := by
    intro r; cases r <;> rfl
  unfold asyncBatchProcessUrls
  rw [List.map_map]
  simp only [Function.comp_def, hid]

/-- C10: for every url list and processor, both batch functions return
exactly one slot per input URL, the i-th slot being the wrapped outcome of
the i-th URL (same order as the input); a failed unit's slot is an error
record carrying that unit's own URL. -/
theorem batch_slots_one_per_url {α : Type} (proc : String → Except String α)
    (batchSize : Nat) (hpos : 0 < batchSize) (urls : List String) :
    (batchProcessUrls proc batchSize urls).length = urls.length ∧
    (asyncBatchProcessUrls proc urls).length = urls.length ∧
    (∀ i : Nat, ∀ hi : i < urls.length,
      (batchProcessUrls proc batchSize urls).get
          ⟨i, by rw [batchProcessUrls_eq_map proc batchSize hpos, List.length_map]; exact hi⟩ =
        wrapSlot proc (urls.get ⟨i, hi⟩) ∧
      (asyncBatchProcessUrls proc urls).get
          ⟨i, by rw [asyncBatchProcessUrls_eq_map, List.length_map]; exact hi⟩ =
        wrapSlot proc (urls.get ⟨i, hi⟩)) ∧
    (∀ u m u', wrapSlot proc u = .err m u' → u' = u) := by
  refine ⟨?_, ?_, ?_, ?_⟩
  · rw [batchProcessUrls_eq_map proc batchSize hpos, List.length_map]
  · rw [asyncBatchProcessUrls_eq_map, List.length_map]
  · intro i hi
    constructor
    · simp only [List.get_eq_getElem]
      have := batchProcessUrls_eq_map proc batchSize hpos urls
      simp only [this, List.getElem_map]
    · simp only [List.get_eq_getElem]
      have := asyncBatchProcessUrls_eq_map proc urls
      simp only [this, List.getElem_map]
  · intro u m u' h
    unfold wrapSlot at h
    cases hp : proc u with
    | ok a => rw [hp] at h; exact absurd h (by simp)
    | error e => rw [hp] at h; injection h with h1 h2; exact h2.symm

/-- Witness for C10 at a concrete two-URL batch whose second unit raises. -/
theorem batch_slots_one_per_url_witness :
    (batchProcessUrls
        (fun u => if u = "https://b.example/y" then .error "boom" else .ok 7)
        5 ["https://a.example/x", "https://b.example/y"]).length = 2 :=
  (batch_slots_one_per_url
    (fun u => if u = "https://b.example/y" then .error "boom" else .ok 7)
    5 (by omega) ["https://a.example/x", "https://b.example/y"]).1

/-- C4: an exception raised by one unit's processor is caught into that
unit's own slot, the siblings still run: for a batch of 5 URLs whose unit
number 3 (index 2) always raises while the others succeed, both batch
functions return 5 terminal slots counting succeeded = 4 and failed = 1,
and the failing unit's slot carries its URL — the batch call itself is a
total function of its inputs and raises nothing. -/
theorem batch_partial_failure_isolated (proc : String → Except String Nat)
    (u1 u2 u3 u4 u5 : String) (e : String)
    (h1 : (proc u1).isOk) (h2 : (proc u2).isOk)
    (h3 : proc u3 = .error e)
    (h4 : (proc u4).isOk) (h5 : (proc u5).isOk) :
    countOk (batchProcessUrls proc 5 [u1, u2, u3, u4, u5]) = 4 ∧
    countErr (batchProcessUrls proc 5 [u1, u2, u3, u4, u5]) = 1 ∧
    (batchProcessUrls proc 5 [u1, u2, u3, u4, u5]).length = 5 ∧
    countOk (asyncBatchProcessUrls proc [u1, u2, u3, u4, u5]) = 4 ∧
    countErr (asyncBatchProcessUrls proc [u1, u2, u3, u4, u5]) = 1 ∧
    .err e u3 ∈ batchProcessUrls proc 5 [u1, u2, u3, u4, u5] := by
  obtain ⟨v1, hv1⟩ : ∃ v, proc u1 = .ok v := by
    cases hp : proc u1 <;> simp [hp, Except.isOk, Except.toBool] at h1 ⊢
  obtain ⟨v2, hv2⟩ : ∃ v, proc u2 = .ok v := by
    cases hp : proc u2 <;> simp [hp, Except.isOk, Except.toBool] at h2 ⊢
  obtain ⟨v4, hv4⟩ : ∃ v, proc u4 = .ok v := by
    cases hp : proc u4 <;> simp [hp, Except.isOk, Except.toBool] at h4 ⊢
  obtain ⟨v5, hv5⟩ : ∃ v, proc u5 = .ok v := by
    cases hp : proc u5 <;> simp [hp, Except.isOk, Except.toBool] at h5 ⊢
  rw [batchProcessUrls_eq_map proc 5 (by omega), asyncBatchProcessUrls_eq_map]
  simp [countOk, countErr, wrapSlot, hv1, hv2, h3, hv4, hv5, List.filter]

/-- Witness for C4 at a concrete 5-URL batch whose third unit raises. -/
theorem batch_partial_failure_isolated_witness :
    countOk (batchProcessUrls
      (fun u => if u = "u3" then .error "boom" else .ok 0)
      5 ["u1", "u2", "u3", "u4", "u5"]) = 4 :=
  (batch_partial_failure_isolated
    (fun u => if u = "u3" then .error "boom" else .ok 0)
    "u1" "u2" "u3" "u4" "u5" "boom"
    (by decide) (by decide) (by rfl) (by decide) (by decide)).1

end SafeCrawler

/-! ### C1 / C8: pacer update placement and keying -/

/-- C1 counterexample: in the blocking `SafeRequester.get`, (a) a request
whose attempt raises (timeout / connection error) leaves
`last_request_time` untouched — the timestamp is *not* updated after every
request — and (b) on a successful request the trace is
`[netCall, stampUpdate]`: the update happens after the network call, not
before it. -/
theorem blocking_pacer_update_misplaced :
    (SafeCrawler.blockingGet ⟨1, []⟩ "https://a.example/x" 10 10 .raised).2.1.lastRequestTime
        = [] ∧
    (SafeCrawler.blockingGet ⟨1, []⟩ "https://a.example/x" 10 10 (.response 200)).1
        = [Ev.netCall, Ev.stampUpdate] := by
  constructor <;> rfl

/-- C1 amended: the cooperative requester's pacer (`wait_if_needed`) stamps
the per-platform timestamp after the (possibly zero) wait and before the
network call, on every request (success or failure); the blocking
requester instead stamps only when the attempt returns a response, and
then after the network call — a raised attempt leaves the dict untouched. -/
theorem pacer_update_placement (p : PlatformStrategies.PlatformPacer)
    (url : String) (required nowEntry nowUpdate : ℤ)
    (attempt : SafeCrawler.RetryOutcome)
    (st : SafeCrawler.BlockingState) (s : Nat) :
    (∃ w, (PlatformStrategies.asyncGet p url required nowEntry nowUpdate attempt).1 =
        w ++ [Ev.stampUpdate, Ev.netCall] ∧ ∀ e ∈ w, e = Ev.pacerWait) ∧
    (PlatformStrategies.asyncGet p url required nowEntry nowUpdate attempt).2.1.lastRequestTimes =
      updateKey p.lastRequestTimes (PlatformStrategies.detectPlatform url) nowUpdate ∧
    (SafeCrawler.blockingGet st url nowEntry nowUpdate .raised).2.1 = st ∧
    (∃ w, (SafeCrawler.blockingGet st url nowEntry nowUpdate (.response s)).1 =
        w ++ [Ev.netCall, Ev.stampUpdate] ∧ ∀ e ∈ w, e = Ev.pacerWait) := by
  refine ⟨?_, ?_, ?_, ?_⟩
  · cases attempt <;>
      · unfold PlatformStrategies.asyncGet PlatformStrategies.PlatformPacer.waitIfNeeded
        by_cases h : nowEntry -
            ((lookupKey p.lastRequestTimes (PlatformStrategies.detectPlatform url)).getD 0)
              < required
        · exact ⟨[Ev.pacerWait], by simp [h], by simp⟩
        · exact ⟨[], by simp [h], by simp⟩
  · cases attempt <;> rfl
  · rfl
  · unfold SafeCrawler.blockingGet
    cases hl : lookupKey st.lastRequestTime (urlparse url).netloc with
    | none => exact ⟨[], by simp [hl], by simp⟩
    | some t =>
        by_cases h : nowEntry - t < st.minDelay
        · exact ⟨[Ev.pacerWait], by simp [hl, h], by simp⟩
        · exact ⟨[], by simp [hl, h], by simp⟩

/-- C8 counterexample: the cooperative pacer keys its record by the
platform label computed from the whole lowercased URL, not by the network
host.  (a) `https://a.example/p` and `https://b.example/q` have distinct
hosts yet both map to the `"default"` platform, so they share one pacing
record; (b) `https://a.example/zhihu.com` and `https://a.example/home`
have the *same* host yet map to different platforms (`"zhihu"` vs
`"default"`), so they consult different records. -/
theorem async_pacer_key_not_host :
    (urlparse "https://a.example/p").netloc ≠ (urlparse "https://b.example/q").netloc ∧
    PlatformStrategies.detectPlatform "https://a.example/p" =
      PlatformStrategies.detectPlatform "https://b.example/q" ∧
    (urlparse "https://a.example/zhihu.com").netloc =
      (urlparse "https://a.example/home").netloc ∧
    PlatformStrategies.detectPlatform "https://a.example/zhihu.com" ≠
      PlatformStrategies.detectPlatform "https://a.example/home" := by
  refine ⟨by decide, by decide, by decide, by decide⟩

/-- C8 amended: the blocking requester keys its pacing state by the URL's
network host (`urlparse(url).netloc`), so a request to `u1` leaves every
other host's record untouched and stamps exactly its own host's record;
the cooperative pacer instead keys by the platform label
`detect_platform(url)` (a substring test over the whole lowercased URL),
so any two URLs mapping to the same platform — even with distinct hosts —
consult and stamp one shared record. -/
theorem pacer_keying (st : SafeCrawler.BlockingState) (u1 u2 : String)
    (t1 t2 : ℤ) (s : Nat) (p : PlatformStrategies.PlatformPacer)
    (req t1' t2' : ℤ) (a : SafeCrawler.RetryOutcome)
    (hne : (urlparse u1).netloc ≠ (urlparse u2).netloc)
    (hsame : PlatformStrategies.detectPlatform u1 =
      PlatformStrategies.detectPlatform u2) :
    lookupKey ((SafeCrawler.blockingGet st u1 t1 t2 (.response s)).2.1).lastRequestTime
        ((urlparse u2).netloc) =
      lookupKey st.lastRequestTime ((urlparse u2).netloc) ∧
    lookupKey ((SafeCrawler.blockingGet st u1 t1 t2 (.response s)).2.1).lastRequestTime
        ((urlparse u1).netloc) = some t2 ∧
    lookupKey ((PlatformStrategies.asyncGet p u1 req t1' t2' a).2.1).lastRequestTimes
        (PlatformStrategies.detectPlatform u2) = some t2' := by
  refine ⟨?_, ?_, ?_⟩
  · show lookupKey (updateKey st.lastRequestTime (urlparse u1).netloc t2)
        ((urlparse u2).netloc) = _
    rw [lookupKey_updateKey, if_neg (fun h => hne h.symm)]
  · show lookupKey (updateKey st.lastRequestTime (urlparse u1).netloc t2)
        ((urlparse u1).netloc) = _
    rw [lookupKey_updateKey, if_pos rfl]
  · cases a <;>
      · show lookupKey
            (updateKey p.lastRequestTimes (PlatformStrategies.detectPlatform u1) t2')
            (PlatformStrategies.detectPlatform u2) = _
        rw [lookupKey_updateKey, if_pos hsame.symm]

/-- Witness for the amended C8 at two concrete distinct-host URLs that
both resolve to the `"default"` platform. -/
theorem pacer_keying_witness :
    lookupKey ((SafeCrawler.blockingGet ⟨1, []⟩ "https://a.example/p" 0 5
          (.response 200)).2.1).lastRequestTime
        ((urlparse "https://b.example/q").netloc) =
      lookupKey ([] : List (String × ℤ)) ((urlparse "https://b.example/q").netloc) :=
  (pacer_keying ⟨1, []⟩ "https://a.example/p" "https://b.example/q" 0 5 200
    ⟨[]⟩ 1 0 5 (.response 200) (by decide) (by decide)).1

/-! ### C5 / C6: cache key normalization and lookup purging -/

namespace CacheManager

/-- C5 counterexample: the volatile-parameter set is not per-strategy — it
is hard-coded to hosts containing `douyin.com`/`iesdouyin.com`.  For the
claim's own URLs `https://a.example/x?ts=1` and `https://a.example/x?ts=2`
the `ts` parameter is kept, the two URLs normalize to different cache
keys, and a store of the first followed by a lookup of the second misses
(with the digest idealized as injective, here the identity). -/
theorem volatile_param_not_strategy_scoped :
    normalizeUrl "https://a.example/x?ts=1" ≠ normalizeUrl "https://a.example/x?ts=2" ∧
    (getCachedResult id
        (saveResult id ⟨86400, 524288000, [], []⟩ 0 "https://a.example/x?ts=1"
          (42 : Nat) 10)
        0 "https://a.example/x?ts=2").2 = none := by
  exact ⟨by decide, by decide⟩

/-- C5 amended: volatile-parameter stripping is keyed by the URL's host,
not by a configurable strategy.  For a douyin host, `ts` is stripped: the
two URLs normalize to the same key and a lookup after a store returns the
payload; for any other host (the claim's `a.example`) the query is kept
verbatim and the two URLs produce different keys; the fragment is dropped
for every URL (normalization does not depend on it). -/
theorem cache_normalization_by_host :
    normalizeUrl "https://www.douyin.com/video/123?ts=1" =
      normalizeUrl "https://www.douyin.com/video/123?ts=2" ∧
    (getCachedResult id
        (saveResult id ⟨86400, 524288000, [], []⟩ 0
          "https://www.douyin.com/video/123?ts=1" (42 : Nat) 10)
        0 "https://www.douyin.com/video/123?ts=2").2 = some 42 ∧
    normalizeUrl "https://a.example/x?ts=1" ≠ normalizeUrl "https://a.example/x?ts=2" ∧
    (∀ p : ParsedUrl, ∀ f : String,
      normalizeParsed { p with fragment := f } =
        normalizeParsed { p with fragment := "" }) := by
  refine ⟨by decide, by decide, by decide, ?_⟩
  intro p f
  cases p
  rfl

/-- C6: a lookup of an indexed entry that is expired, or whose payload
file is missing, or whose payload file exists but is unreadable, returns
absent and removes the entry from the index in the same operation. -/
theorem cache_lookup_purges_invalid {α : Type} (digest : String → String)
    (c : CacheState α) (now : ℤ) (url : String) (entry : IndexEntry)
    (hl : lookupKey c.entries (digest (normalizeUrl url)) = some entry)
    (hbad : c.expirySeconds < now - entry.cachedAt
      ∨ lookupKey c.files (digest (normalizeUrl url)) = none
      ∨ ∀ f, lookupKey c.files (digest (normalizeUrl url)) = some f →
          f.content = none) :
    (getCachedResult digest c now url).2 = none ∧
    lookupKey (getCachedResult digest c now url).1.entries
      (digest (normalizeUrl url)) = none := by
  have key : getCachedResult digest c now url =
      (removeCacheEntry c (digest (normalizeUrl url)), none) := by
    unfold getCachedResult
    rw [hl]
    by_cases hv : isCacheValid c now (some entry) = true
    · rw [if_pos hv]
      replace hv : (if c.expirySeconds < now - entry.cachedAt then false
          else (lookupKey c.files entry.urlHash).isSome) = true := hv
      by_cases hexp : c.expirySeconds < now - entry.cachedAt
      · rw [if_pos hexp] at hv
        exact absurd hv (by simp)
      · rcases hbad with hb | hb | hb
        · exact absurd hb hexp
        · rw [hb]
        · cases hf : lookupKey c.files (digest (normalizeUrl url)) with
          | none => rfl
          | some f =>
              change (match f.content with
                | some d => (c, some d)
                | none => (removeCacheEntry c (digest (normalizeUrl url)), none)) = _
              rw [hb f hf]
    · rw [if_neg hv]
  rw [key]
  exact ⟨rfl, lookupKey_removeKey_self _ _⟩

theorem sum_filter_le {γ : Type} (l : List γ) (P : γ → Bool) (f : γ → Nat) :
    ((l.filter P).map f).sum ≤ (l.map f).sum := by
  induction l with
  | nil => simp
  | cons a rest ih =>
      by_cases hPa : P a = true
      · rw [List.filter_cons_of_pos hPa]
        simp only [List.map_cons, List.sum_cons]
        exact Nat.add_le_add_left ih _
      · rw [List.filter_cons_of_neg hPa]
        simp only [List.map_cons, List.sum_cons]
        exact le_trans ih (Nat.le_add_left _ _)

theorem sum_filter_lt {γ : Type} (l : List γ) (P : γ → Bool) (f : γ → Nat)
    (x : γ) (hx : x ∈ l) (hPx : P x = false) (hpos : 0 < f x) :
    ((l.filter P).map f).sum < (l.map f).sum := by
  induction l with
  | nil => cases hx
  | cons a rest ih =>
      rcases List.mem_cons.mp hx with h | h
      · subst h
        rw [List.filter_cons_of_neg (by simp [hPx])]
        simp only [List.map_cons, List.sum_cons]
        calc ((rest.filter P).map f).sum ≤ (rest.map f).sum := sum_filter_le rest P f
          _ < f x + (rest.map f).sum := by omega
      · by_cases hPa : P a = true
        · rw [List.filter_cons_of_pos hPa]
          simp only [List.map_cons, List.sum_cons]
          exact Nat.add_lt_add_left (ih h) _
        · rw [List.filter_cons_of_neg hPa]
          simp only [List.map_cons, List.sum_cons]
          exact lt_of_lt_of_le (ih h) (Nat.le_add_left _ _)

theorem foldl_removeCacheEntry {α : Type} (l : List (String × IndexEntry)) :
    ∀ c : CacheState α,
      l.foldl (fun acc kv => removeCacheEntry acc kv.1) c =
        ⟨c.expirySeconds, c.maxSizeBytes,
         c.entries.filter (fun p => decide (p.1 ∉ l.map Prod.fst)),
         c.files.filter (fun p => decide (p.1 ∉ l.map Prod.fst))⟩ := by
  induction l with
  | nil =>
      intro c
      obtain ⟨e, m, es, fs⟩ := c
      simp
  | cons kv rest ih =>
      intro c
      rw [List.foldl_cons, ih]
      obtain ⟨e, m, es, fs⟩ := c
      simp only [removeCacheEntry, removeKey_eq_filter, List.filter_filter]
      simp only [CacheState.mk.injEq, true_and]
      constructor <;>
        · apply List.filter_congr
          intro p _
          by_cases h1 : p.1 = kv.1 <;> by_cases h2 : p.1 ∈ rest.map Prod.fst <;>
            simp [h1, h2]

/-- The eviction pass `_cleanup_old_entries` removes, from both the index
and the payload store, exactly the keys of the `max 1 (n // 4)` entries
that sort first by `cached_at`. -/
theorem cleanupOldEntries_eq {α : Type} (c : CacheState α) :
    cleanupOldEntries c =
      ⟨c.expirySeconds, c.maxSizeBytes,
       c.entries.filter (fun p => decide (p.1 ∉
         ((c.entries.mergeSort (fun a b => decide (a.2.cachedAt ≤ b.2.cachedAt))).take
           (max 1 (c.entries.length / 4))).map Prod.fst)),
       c.files.filter (fun p => decide (p.1 ∉
         ((c.entries.mergeSort (fun a b => decide (a.2.cachedAt ≤ b.2.cachedAt))).take
           (max 1 (c.entries.length / 4))).map Prod.fst))⟩ := by
  unfold cleanupOldEntries
  exact foldl_removeCacheEntry _ c

/-- C7: when the total payload size exceeds the budget, the size check
triggers the eviction pass, which removes exactly `max 1 (n / 4)` index
entries, strictly decreases the total payload size (every entry's payload
file is nonempty), and evicts only oldest-first: every evicted entry's
`cached_at` is at most every surviving entry's `cached_at`. -/
theorem cache_size_eviction {α : Type} (c : CacheState α)
    (hnodup : (c.entries.map Prod.fst).Nodup)
    (hfiles : ∀ kv ∈ c.entries, 0 < fileSizeOf c.files kv.1)
    (htrig : c.maxSizeBytes < totalCacheSize c)
    (hne : c.entries ≠ []) :
    (cleanupIfNeeded c).entries.length
        = c.entries.length - max 1 (c.entries.length / 4) ∧
    totalCacheSize (cleanupIfNeeded c) < totalCacheSize c ∧
    (∀ kv ∈ c.entries, kv ∉ (cleanupIfNeeded c).entries →
      ∀ kv' ∈ (cleanupIfNeeded c).entries, kv.2.cachedAt ≤ kv'.2.cachedAt) := by
  have hclean : cleanupIfNeeded c = cleanupOldEntries c := by
    unfold cleanupIfNeeded
    rw [if_pos htrig]
  have hperm : (c.entries.mergeSort
      (fun a b => decide (a.2.cachedAt ≤ b.2.cachedAt))).Perm c.entries :=
    List.mergeSort_perm c.entries _
  have hsplit : c.entries.mergeSort (fun a b => decide (a.2.cachedAt ≤ b.2.cachedAt)) =
      (c.entries.mergeSort (fun a b => decide (a.2.cachedAt ≤ b.2.cachedAt))).take
          (max 1 (c.entries.length / 4)) ++
        (c.entries.mergeSort (fun a b => decide (a.2.cachedAt ≤ b.2.cachedAt))).drop
          (max 1 (c.entries.length / 4)) :=
    (List.take_append_drop _ _).symm
  have hsortnodup : ((c.entries.mergeSort
      (fun a b => decide (a.2.cachedAt ≤ b.2.cachedAt))).map Prod.fst).Nodup :=
    ((hperm.map Prod.fst).nodup_iff).mpr hnodup
  have hdisj : ∀ a, a ∈ ((c.entries.mergeSort
        (fun a b => decide (a.2.cachedAt ≤ b.2.cachedAt))).take
          (max 1 (c.entries.length / 4))).map Prod.fst →
      a ∈ ((c.entries.mergeSort
        (fun a b => decide (a.2.cachedAt ≤ b.2.cachedAt))).drop
          (max 1 (c.entries.length / 4))).map Prod.fst → False := by
    have h := hsortnodup
    rw [hsplit, List.map_append] at h
    have := (List.nodup_append.mp h).2.2
    intro a ha hb
    exact this ha hb
  have hfilter_take : ((c.entries.mergeSort
        (fun a b => decide (a.2.cachedAt ≤ b.2.cachedAt))).take
          (max 1 (c.entries.length / 4))).filter
      (fun p => decide (p.1 ∉ ((c.entries.mergeSort
        (fun a b => decide (a.2.cachedAt ≤ b.2.cachedAt))).take
          (max 1 (c.entries.length / 4))).map Prod.fst)) = [] := by
    rw [List.filter_eq_nil_iff]
    intro a ha
    simp only [decide_eq_true_eq, not_not]
    exact List.mem_map_of_mem Prod.fst ha
  have hfilter_drop : ((c.entries.mergeSort
        (fun a b => decide (a.2.cachedAt ≤ b.2.cachedAt))).drop
          (max 1 (c.entries.length / 4))).filter
      (fun p => decide (p.1 ∉ ((c.entries.mergeSort
        (fun a b => decide (a.2.cachedAt ≤ b.2.cachedAt))).take
          (max 1 (c.entries.length / 4))).map Prod.fst)) =
      (c.entries.mergeSort
        (fun a b => decide (a.2.cachedAt ≤ b.2.cachedAt))).drop
          (max 1 (c.entries.length / 4)) := by
    rw [List.filter_eq_self]
    intro a ha
    simp only [decide_eq_true_eq]
    intro hmem
    exact hdisj a.1 hmem (List.mem_map_of_mem Prod.fst ha)
  have hperm' : (c.entries.filter
      (fun p => decide (p.1 ∉ ((c.entries.mergeSort
        (fun a b => decide (a.2.cachedAt ≤ b.2.cachedAt))).take
          (max 1 (c.entries.length / 4))).map Prod.fst))).Perm
      ((c.entries.mergeSort
        (fun a b => decide (a.2.cachedAt ≤ b.2.cachedAt))).drop
          (max 1 (c.entries.length / 4))) := by
    have h1 := (hperm.symm).filter (fun p => decide (p.1 ∉ ((c.entries.mergeSort
        (fun a b => decide (a.2.cachedAt ≤ b.2.cachedAt))).take
          (max 1 (c.entries.length / 4))).map Prod.fst))
    have h2 : ((c.entries.mergeSort
        (fun a b => decide (a.2.cachedAt ≤ b.2.cachedAt))).filter
          (fun p => decide (p.1 ∉ ((c.entries.mergeSort
            (fun a b => decide (a.2.cachedAt ≤ b.2.cachedAt))).take
              (max 1 (c.entries.length / 4))).map Prod.fst))) =
        (c.entries.mergeSort
          (fun a b => decide (a.2.cachedAt ≤ b.2.cachedAt))).drop
            (max 1 (c.entries.length / 4)) := by
      have h3 := @List.filter_append _
        (fun p => decide (p.1 ∉ ((c.entries.mergeSort
          (fun a b => decide (a.2.cachedAt ≤ b.2.cachedAt))).take
            (max 1 (c.entries.length / 4))).map Prod.fst))
        ((c.entries.mergeSort
          (fun a b => decide (a.2.cachedAt ≤ b.2.cachedAt))).take
            (max 1 (c.entries.length / 4)))
        ((c.entries.mergeSort
          (fun a b => decide (a.2.cachedAt ≤ b.2.cachedAt))).drop
            (max 1 (c.entries.length / 4)))
      rw [← hsplit] at h3
      rw [h3, hfilter_take, hfilter_drop, List.nil_append]
    rw [h2] at h1
    exact h1
  have hpair : (c.entries.mergeSort
      (fun a b => decide (a.2.cachedAt ≤ b.2.cachedAt))).Pairwise
      (fun a b => a.2.cachedAt ≤ b.2.cachedAt) := by
    have h := @List.sorted_mergeSort (String × IndexEntry)
      (fun a b => decide (a.2.cachedAt ≤ b.2.cachedAt))
      (by
        intro a b d hab hbd
        simp only [decide_eq_true_eq] at hab hbd ⊢
        exact le_trans hab hbd)
      (by
        intro a b
        simp only [Bool.or_eq_true, decide_eq_true_eq]
        exact le_total _ _)
      c.entries
    exact h.imp (by intro a b hab; simpa using hab)
  rw [hclean, cleanupOldEntries_eq]
  refine ⟨?_, ?_, ?_⟩
  · show (c.entries.filter _).length = _
    rw [hperm'.length_eq, List.length_drop, hperm.length_eq]
  · have hcnt1 : 1 ≤ max 1 (c.entries.length / 4) := le_max_left _ _
    have hn1 : 1 ≤ c.entries.length := List.length_pos.mpr hne
    have htakepos : 0 < ((c.entries.mergeSort
        (fun a b => decide (a.2.cachedAt ≤ b.2.cachedAt))).take
          (max 1 (c.entries.length / 4))).length := by
      rw [List.length_take, hperm.length_eq]
      omega
    obtain ⟨e0, he0⟩ := List.exists_mem_of_length_pos htakepos
    have he0sorted : e0 ∈ c.entries.mergeSort
        (fun a b => decide (a.2.cachedAt ≤ b.2.cachedAt)) :=
      List.mem_of_mem_take he0
    have he0entries : e0 ∈ c.entries := hperm.subset he0sorted
    have hfe := hfiles e0 he0entries
    unfold fileSizeOf at hfe
    cases hlf : lookupKey c.files e0.1 with
    | none => rw [hlf] at hfe; exact absurd hfe (by simp)
    | some f =>
        rw [hlf] at hfe
        have hmem : (e0.1, f) ∈ c.files := lookupKey_mem _ _ _ hlf
        have hPfalse : (fun p : String × FileRec α => decide (p.1 ∉
            ((c.entries.mergeSort
              (fun a b => decide (a.2.cachedAt ≤ b.2.cachedAt))).take
                (max 1 (c.entries.length / 4))).map Prod.fst)) (e0.1, f) = false := by
          simp only [decide_eq_false_iff_not, not_not]
          exact List.mem_map_of_mem Prod.fst he0
        show ((c.files.filter _).map fun f => f.2.size).sum <
          (c.files.map fun f => f.2.size).sum
        exact sum_filter_lt c.files _ (fun p => p.2.size) (e0.1, f) hmem hPfalse hfe
  · intro kv hkv hnotin kv' hkv'
    have hkv'drop : kv' ∈ (c.entries.mergeSort
        (fun a b => decide (a.2.cachedAt ≤ b.2.cachedAt))).drop
          (max 1 (c.entries.length / 4)) := hperm'.subset hkv'
    have hkvsorted : kv ∈ c.entries.mergeSort
        (fun a b => decide (a.2.cachedAt ≤ b.2.cachedAt)) :=
      hperm.mem_iff.mpr hkv
    have hkvtake : kv ∈ (c.entries.mergeSort
        (fun a b => decide (a.2.cachedAt ≤ b.2.cachedAt))).take
          (max 1 (c.entries.length / 4)) := by
      rw [hsplit] at hkvsorted
      rcases List.mem_append.mp hkvsorted with h | h
      · exact h
      · exfalso
        apply hnotin
        apply List.mem_filter.mpr
        refine ⟨hkv, ?_⟩
        simp only [decide_eq_true_eq]
        intro hmem
        exact hdisj kv.1 hmem (List.mem_map_of_mem Prod.fst h)
    have hrel := List.pairwise_append.mp (by rw [← hsplit]; exact hpair)
    exact hrel.2.2 kv hkvtake kv' hkv'drop

/-- Witness for C7: a two-entry cache whose 120 payload bytes exceed the
100-byte budget evicts `max 1 (2 / 4) = 1` entry. -/
theorem cache_size_eviction_witness :
    (cleanupIfNeeded (⟨1000, 100,
        [("h1", ⟨"u1", "h1", 0, 60⟩), ("h2", ⟨"u2", "h2", 5, 60⟩)],
        [("h1", ⟨some 1, 60⟩), ("h2", ⟨some 2, 60⟩)]⟩ : CacheState Nat)).entries.length
      = 2 - max 1 (2 / 4) :=
  (cache_size_eviction (⟨1000, 100,
      [("h1", ⟨"u1", "h1", 0, 60⟩), ("h2", ⟨"u2", "h2", 5, 60⟩)],
      [("h1", ⟨some 1, 60⟩), ("h2", ⟨some 2, 60⟩)]⟩ : CacheState Nat)
    (by decide) (by decide) (by decide) (by decide)).1

/-- Witness for C6: an entry stored at time 0 with a 1-second TTL, looked
up 1.5 seconds later (times in milliseconds: ttl = 1000, lookup at 1500),
returns absent and is gone from the index. -/
theorem cache_lookup_purges_invalid_witness :
    (getCachedResult id
        (saveResult id ⟨1000, 524288000, [], []⟩ 0 "https://a.example/x" (42 : Nat) 10)
        1500 "https://a.example/x").2 = none ∧
    lookupKey (getCachedResult id
        (saveResult id ⟨1000, 524288000, [], []⟩ 0 "https://a.example/x" (42 : Nat) 10)
        1500 "https://a.example/x").1.entries
      (id (normalizeUrl "https://a.example/x")) = none :=
  cache_lookup_purges_invalid id
    (saveResult id ⟨1000, 524288000, [], []⟩ 0 "https://a.example/x" (42 : Nat) 10)
    1500 "https://a.example/x"
    ⟨"https://a.example/x", "https://a.example/x", 0, 10⟩
    (by decide) (Or.inl (by decide))

end CacheManager

/-! ### C9: the check-and-update of the cooperative pacer serializes -/

namespace PacerSim

theorem inv_step (req1 req2 : ℤ) (c c' : Config) (hinv : Inv c)
    (hstep : Step req1 req2 c c') : Inv c' := by
  cases hstep with
  | first l k t1 t2 l' k' t1' h =>
      obtain ⟨h1, h2, h3, h4⟩ := hinv
      have hlk : l ≤ k := h1
      cases h with
      | checkNoWait n1 n2 hc1 hc2 hle =>
          refine ⟨le_refl _, ?_, ?_, ?_⟩
          · intro t ht
            injection ht with ht1 ht2
            subst ht1
            show l < l'
            omega
          · intro t ht
            have h3' : t < l := h3 t ht
            show t < l'
            omega
          · intro a b ha hb
            injection ha with ha1 ha2
            subst ha1
            have h3' : b < l := h3 b hb
            omega
      | checkWait x hc1 hle =>
          refine ⟨?_, ?_, ?_, ?_⟩
          · show l ≤ k'
            omega
          · intro t ht; simp at ht
          · intro t ht; exact h3 t ht
          · intro a b ha hb; simp at ha
      | wake rt x =>
          refine ⟨le_refl _, ?_, ?_, ?_⟩
          · intro u hu
            injection hu with hu1 hu2
            simp at hu2
          · intro u hu
            have h3' : u < l := h3 u hu
            show u < l'
            omega
          · intro a b ha hb
            injection ha with ha1 ha2
            simp at ha2
  | second l k t1 t2 l' k' t2' h =>
      obtain ⟨h1, h2, h3, h4⟩ := hinv
      have hlk : l ≤ k := h1
      cases h with
      | checkNoWait n1 n2 hc1 hc2 hle =>
          refine ⟨le_refl _, ?_, ?_, ?_⟩
          · intro t ht
            have h2' : t < l := h2 t ht
            show t < l'
            omega
          · intro t ht
            injection ht with ht1 ht2
            subst ht1
            show l < l'
            omega
          · intro a b ha hb
            injection hb with hb1 hb2
            subst hb1
            have h2' : a < l := h2 a ha
            omega
      | checkWait x hc1 hle =>
          refine ⟨?_, ?_, ?_, ?_⟩
          · show l ≤ k'
            omega
          · intro t ht; exact h2 t ht
          · intro t ht; simp at ht
          · intro a b ha hb; simp at hb
      | wake rt x =>
          refine ⟨le_refl _, ?_, ?_, ?_⟩
          · intro u hu
            have h2' : u < l := h2 u hu
            show u < l'
            omega
          · intro u hu
            injection hu with hu1 hu2
            simp at hu2
          · intro a b ha hb
            injection hb with hb1 hb2
            simp at hb2

theorem inv_reachable (req1 req2 : ℤ) (c c' : Config)
    (hreach : Relation.ReflTransGen (Step req1 req2) c c') (hc : Inv c) :
    Inv c' := by
  induction hreach with
  | refl => exact hc
  | tail _ hstep ih => exact inv_step req1 req2 _ _ ih hstep

/-- C9: under asyncio's cooperative scheduling (atomic blocks between
`await` points) and a strictly monotone clock, two concurrent
`wait_if_needed` calls for the same platform can never both read the same
last-request timestamp and both proceed without waiting: in every
reachable configuration in which both coroutines finished on the no-wait
path, the timestamps they based their elapsed-time computation on differ
(the later one necessarily read the earlier one's stamp, because the
read-compare-stamp of the no-wait path is a single atomic block). -/
theorem pacer_no_double_skip (req1 req2 l0 c0 : ℤ) (hinit : l0 ≤ c0)
    (c : Config)
    (hreach : Relation.ReflTransGen (Step req1 req2) ⟨l0, c0, .ready, .ready⟩ c)
    (t1 t2 : ℤ) (h1 : c.task1 = .finished t1 false)
    (h2 : c.task2 = .finished t2 false) :
    t1 ≠ t2 := by
  have hinv : Inv c := inv_reachable req1 req2 _ _ hreach
    ⟨hinit, by intro t ht; simp at ht, by intro t ht; simp at ht,
      by intro a b ha hb; simp at ha⟩
  exact hinv.2.2.2 t1 t2 h1 h2

/-- Witness for C9: a concrete two-step schedule in which both coroutines
take the no-wait path; the second read the first's stamp (2), not the
initial value (0). -/
theorem pacer_no_double_skip_witness :
    Relation.ReflTransGen (Step 1 1) ⟨0, 0, .ready, .ready⟩
      ⟨4, 4, .finished 0 false, .finished 2 false⟩ ∧ (0 : ℤ) ≠ 2 := by
  have s1 : Step 1 1 ⟨0, 0, .ready, .ready⟩ ⟨2, 2, .finished 0 false, .ready⟩ :=
    .first 0 0 .ready .ready 2 2 (.finished 0 false)
      (.checkNoWait 0 0 1 2 (by omega) (by omega) (by omega))
  have s2 : Step 1 1 ⟨2, 2, .finished 0 false, .ready⟩
      ⟨4, 4, .finished 0 false, .finished 2 false⟩ :=
    .second 2 2 (.finished 0 false) .ready 4 4 (.finished 2 false)
      (.checkNoWait 2 2 3 4 (by omega) (by omega) (by omega))
  have chain : Relation.ReflTransGen (Step 1 1) ⟨0, 0, .ready, .ready⟩
      ⟨4, 4, .finished 0 false, .finished 2 false⟩ :=
    Relation.ReflTransGen.tail (Relation.ReflTransGen.tail Relation.ReflTransGen.refl s1) s2
  exact ⟨chain, pacer_no_double_skip 1 1 0 0 (by omega) _ chain 0 2 rfl rfl⟩

end PacerSim
